import Mathlib

/-!
Verification of the citation-extraction core of the GSPP user-guides search app
(`src/app.py`, function `extract_citations`), shallowly embedded in Lean.

Python attributes that may be absent are modelled as `Option` fields, with
`none` standing for an absent attribute (so `getattr(x, 'f', d)` becomes
`x.f.getD d`).  Python truthiness of strings/lists (empty is falsy, `None` is
falsy) is modelled explicitly where the source relies on it.
-/

namespace GSPP

/-- Python `a or b` on strings obtained from `getattr` with a default:
the left value if non-empty (truthy), else the right value. -/
def pyOr (a b : String) : String := if a = "" then b else a

/-- Resolution of `getattr(x, primary, None) or getattr(x, alternate, None) or []`
(also used with `[]` defaults, which is truthiness-equivalent): the first
field that is present and non-empty wins; otherwise the empty list. -/
def firstTruthy (a b : Option (List α)) : List α :=
  match a with
  | some (x :: xs) => x :: xs
  | _ =>
    match b with
    | some (y :: ys) => y :: ys
    | _ => []

/-- The nested retrieved-context object a grounding chunk may carry
(`chunk.retrieved_context` / `chunk.retrievedContext` in `app.py`). -/
structure RetrievedContext where
  title : Option String
  displayName : Option String
  uri : Option String
deriving DecidableEq

/-- One retrieved chunk of grounding metadata.  `attrs` models the attribute
names `dir(chunk)` reports (used only for diagnostics).  `title` is the
chunk-level title some schema variants carry; `extract_citations` never reads
it. -/
structure RawChunk where
  retrieved_context : Option RetrievedContext
  retrievedContext : Option RetrievedContext
  title : Option String
  text : Option String
  content : Option String
  attrs : List String
deriving DecidableEq

/-- One grounding support record; its chunk-index list may be spelled two
ways (`grounding_chunk_indices` / `groundingChunkIndices`).  Indices are
integers and may be out of range. -/
structure RawSupport where
  grounding_chunk_indices : Option (List Int)
  groundingChunkIndices : Option (List Int)
deriving DecidableEq

/-- The `retrieval_metadata` alternative structure probed only for
diagnostics. -/
structure RetrievalMetadata where
  attrs : List String
deriving DecidableEq

/-- Grounding metadata attached to a candidate, with both field-name
spellings for chunks and supports. -/
structure GroundingMetadata where
  grounding_chunks : Option (List RawChunk)
  groundingChunks : Option (List RawChunk)
  grounding_supports : Option (List RawSupport)
  groundingSupports : Option (List RawSupport)
  retrieval_metadata : Option RetrievalMetadata
  attrs : List String
deriving DecidableEq

/-- One response candidate; `attrs` models `dir(candidate)`. -/
structure Candidate where
  grounding_metadata : Option GroundingMetadata
  attrs : List String
deriving DecidableEq

/-- The response object handed to `extract_citations`. -/
structure Response where
  candidates : List Candidate
deriving DecidableEq

/-- The per-chunk info dict built by `extract_citations`.  The `title` and
`uri` keys are set only when a retrieved context is present, hence `Option`;
the `text` key is always set. -/
structure ChunkInfo where
  index : Nat
  title : Option String
  uri : Option String
  text : String
deriving DecidableEq

/-- One output citation record. -/
structure Citation where
  title : String
  source_text : String
  uri : String
deriving DecidableEq

/-- `app.py` lines 220-238: build the info dict for chunk `i`. -/
def resolveChunk (chunk : RawChunk) (i : Nat) : ChunkInfo :=
  let ctx :=
    match chunk.retrieved_context with
    | some c => some c
    | none => chunk.retrievedContext
  let text := pyOr (chunk.text.getD "") (chunk.content.getD "")
  match ctx with
  | some c =>
    { index := i
      title := some (pyOr (c.title.getD "") (c.displayName.getD "Unknown Source"))
      uri := some (c.uri.getD "")
      text := text }
  | none => { index := i, title := none, uri := none, text := text }

/-- `app.py` lines 197-201: resolve the chunk list. -/
def metadataChunks (m : GroundingMetadata) : List RawChunk :=
  firstTruthy m.grounding_chunks m.groundingChunks

/-- `app.py` lines 203-207: resolve the support list. -/
def metadataSupports (m : GroundingMetadata) : List RawSupport :=
  firstTruthy m.grounding_supports m.groundingSupports

/-- `app.py` lines 252-256: resolve a support's chunk-index list. -/
def supportIndices (s : RawSupport) : List Int :=
  firstTruthy s.grounding_chunk_indices s.groundingChunkIndices

/-- The chunk-info map, as the list whose position `i` holds chunk `i`'s
info. -/
def chunkInfos (m : GroundingMetadata) : List ChunkInfo :=
  (metadataChunks m).enum.map fun p => resolveChunk p.2 p.1

/-- Citation built in the direct-chunk branch (`app.py` lines 244-248). -/
def mkCitationA (info : ChunkInfo) : Citation :=
  { title := info.title.getD "Source Document"
    source_text := info.text
    uri := info.uri.getD "" }

/-- Citation built in the supports branch (`app.py` lines 261-265). -/
def mkCitationB (info : ChunkInfo) : Citation :=
  { title := info.title.getD "Unknown"
    source_text := info.text
    uri := info.uri.getD "" }

/-- `if info.get('text') or info.get('title')` (`app.py` line 243): the
chunk is directly citable when its text is non-empty or its title key holds a
non-empty string. -/
def isCitable (info : ChunkInfo) : Bool :=
  info.text ≠ "" ||
    (match info.title with
     | some t => t ≠ ""
     | none => false)

/-- Branch A (`app.py` lines 241-248): cite every citable chunk in chunk
order. -/
def branchA (infos : List ChunkInfo) : List Citation :=
  (infos.filter isCitable).map mkCitationA

/-- `app.py` lines 258-265 body: `if idx in chunk_info`, emit a citation;
negative or out-of-range indices yield nothing. -/
def citeFromIndex (infos : List ChunkInfo) (idx : Int) : Option Citation :=
  if idx < 0 then none
  else
    match infos[idx.toNat]? with
    | some info => some (mkCitationB info)
    | none => none

/-- Branch B (`app.py` lines 250-265): for each support in order, for each
referenced index in order, emit a citation when the index is in the map. -/
def branchB (infos : List ChunkInfo) (supports : List RawSupport) : List Citation :=
  supports.flatMap fun s => (supportIndices s).filterMap (citeFromIndex infos)

/-- The pre-deduplication citation list of the branch the code chooses
(`app.py` lines 241-265): Branch A iff chunks are present and supports are
absent, else Branch B. -/
def rawCites (m : GroundingMetadata) : List Citation :=
  if !(metadataChunks m).isEmpty && (metadataSupports m).isEmpty then
    branchA (chunkInfos m)
  else
    branchB (chunkInfos m) (metadataSupports m)

/-- The deduplication key (`app.py` line 271): title paired with the first
100 characters of the source text. -/
def citeKey (c : Citation) : String × String :=
  (c.title, c.source_text.take 100)

/-- The seen-set loop of `app.py` lines 268-274, with the set of seen keys
as an explicit accumulator. -/
def dedupAux : List Citation → List (String × String) → List Citation
  | [], _ => []
  | c :: rest, seen =>
    if citeKey c ∈ seen then dedupAux rest seen
    else c :: dedupAux rest (citeKey c :: seen)

/-- Deduplication (`app.py` lines 267-274). -/
def dedup (cs : List Citation) : List Citation := dedupAux cs []

/-- A value stored in the `debug_info` dict. -/
inductive DbgVal where
  | str : String → DbgVal
  | nat : Nat → DbgVal
  | bool : Bool → DbgVal
  | strList : List String → DbgVal
deriving DecidableEq

/-- The `debug_info` dict, as its entries in insertion order (all keys the
code inserts are distinct). -/
abbrev DebugInfo := List (String × DbgVal)

/-- `extract_citations` (`app.py` lines 176-276): returns the deduplicated
citations and the diagnostics dict. -/
def extract_citations (response : Response) : List Citation × DebugInfo :=
  match response.candidates with
  | [] => ([], [("error", DbgVal.str "No candidates in response")])
  | candidate :: _ =>
    match candidate.grounding_metadata with
    | none =>
      ([], [("error", DbgVal.str "No grounding_metadata in candidate"),
            ("candidate_attrs", DbgVal.strList candidate.attrs)])
    | some metadata =>
      let grounding_chunks := metadataChunks metadata
      let grounding_supports := metadataSupports metadata
      let dbg : DebugInfo :=
        [("metadata_attrs", DbgVal.strList metadata.attrs)]
        ++ (match metadata.retrieval_metadata with
            | some rm =>
              [("has_retrieval_metadata", DbgVal.bool true),
               ("retrieval_metadata_attrs", DbgVal.strList rm.attrs)]
            | none => [])
        ++ [("grounding_chunks_count", DbgVal.nat grounding_chunks.length),
            ("grounding_supports_count", DbgVal.nat grounding_supports.length)]
        ++ (grounding_chunks.enum.map fun p =>
              ("chunk_" ++ toString p.1 ++ "_attrs", DbgVal.strList p.2.attrs))
      (dedup (rawCites metadata), dbg)

/-- The chosen branch's candidate citation sequence for a whole response:
what `extract_citations` deduplicates (empty in the error branches). -/
def candidateCitations (response : Response) : List Citation :=
  match response.candidates with
  | [] => []
  | candidate :: _ =>
    match candidate.grounding_metadata with
    | none => []
    | some metadata => rawCites metadata

/-- Deduplication as the spec words it, independent of the code's seen-set
loop: walking the list in order, an element is kept exactly when its key has
not occurred among the earlier elements of the input; `occurred` accumulates
the keys of all elements walked so far, kept or not. -/
def dedupSpecAux (occurred : List (String × String)) : List Citation → List Citation
  | [] => []
  | c :: rest =>
    if citeKey c ∈ occurred then dedupSpecAux (citeKey c :: occurred) rest
    else c :: dedupSpecAux (citeKey c :: occurred) rest

/-- Spec-side deduplication: keep exactly the first occurrence of each key,
in input order. -/
def dedupSpec (cs : List Citation) : List Citation := dedupSpecAux [] cs

/-! ### Lemmas about the deduplication loop -/

theorem dedupAux_sublist (cs : List Citation) (seen : List (String × String)) :
    (dedupAux cs seen).Sublist cs := by
  induction cs generalizing seen with
  | nil => simp [dedupAux]
  | cons c rest ih =>
    simp only [dedupAux]
    split
    · exact (ih seen).trans (List.sublist_cons_self c rest)
    · exact (ih _).cons₂ c

theorem key_not_mem_seen_of_mem_dedupAux {c : Citation} :
    ∀ (cs : List Citation) (seen : List (String × String)),
      c ∈ dedupAux cs seen → citeKey c ∉ seen := by
  intro cs
  induction cs with
  | nil => intro seen h; simp [dedupAux] at h
  | cons a rest ih =>
    intro seen h
    simp only [dedupAux] at h
    split at h
    · exact ih seen h
    · rcases List.mem_cons.mp h with rfl | hm
      · assumption
      · intro hc
        exact (ih _ hm) (List.mem_cons_of_mem _ hc)

theorem dedupAux_pairwise (cs : List Citation) (seen : List (String × String)) :
    (dedupAux cs seen).Pairwise fun a b => citeKey a ≠ citeKey b := by
  induction cs generalizing seen with
  | nil => simp [dedupAux]
  | cons a rest ih =>
    simp only [dedupAux]
    split
    · exact ih seen
    · refine List.Pairwise.cons ?_ (ih _)
      intro b hb hkey
      exact key_not_mem_seen_of_mem_dedupAux rest _ hb
        (by rw [← hkey]; exact List.mem_cons_self _ _)

theorem dedupAux_eq_dedupSpecAux :
    ∀ (cs : List Citation) (s1 s2 : List (String × String)),
      (∀ k, k ∈ s1 ↔ k ∈ s2) → dedupAux cs s1 = dedupSpecAux s2 cs := by
  intro cs
  induction cs with
  | nil => intro s1 s2 _; rfl
  | cons a rest ih =>
    intro s1 s2 h
    simp only [dedupAux, dedupSpecAux]
    by_cases hk : citeKey a ∈ s1
    · rw [if_pos hk, if_pos ((h _).mp hk)]
      apply ih
      intro k
      constructor
      · intro hks
        exact List.mem_cons_of_mem _ ((h k).mp hks)
      · intro hks
        rcases List.mem_cons.mp hks with heq | hks2
        · rw [heq]; exact hk
        · exact (h k).mpr hks2
    · rw [if_neg hk, if_neg (fun hc => hk ((h _).mpr hc))]
      congr 1
      apply ih
      intro k
      simp only [List.mem_cons]
      exact or_congr Iff.rfl (h k)

theorem dedupAux_eq_self (cs : List Citation) (seen : List (String × String))
    (hp : cs.Pairwise fun a b => citeKey a ≠ citeKey b)
    (hs : ∀ c ∈ cs, citeKey c ∉ seen) :
    dedupAux cs seen = cs := by
  induction cs generalizing seen with
  | nil => rfl
  | cons a rest ih =>
    simp only [dedupAux]
    rw [if_neg (hs a (List.mem_cons_self _ _))]
    congr 1
    refine ih _ (List.Pairwise.of_cons hp) ?_
    intro c hc hmem
    rcases List.mem_cons.mp hmem with heq | hmem2
    · exact (List.rel_of_pairwise_cons hp hc) heq.symm
    · exact hs c (List.mem_cons_of_mem _ hc) hmem2

theorem exists_key_mem_dedupAux (cs : List Citation) :
    ∀ (seen : List (String × String)) (c : Citation), c ∈ cs → citeKey c ∉ seen →
      ∃ c' ∈ dedupAux cs seen, citeKey c' = citeKey c := by
  induction cs with
  | nil => intro seen c hc _; cases hc
  | cons a rest ih =>
    intro seen c hc hseen
    simp only [dedupAux]
    rcases List.mem_cons.mp hc with rfl | hm
    · rw [if_neg hseen]
      exact ⟨c, List.mem_cons_self _ _, rfl⟩
    · by_cases hk : citeKey a ∈ seen
      · rw [if_pos hk]
        exact ih seen c hm hseen
      · rw [if_neg hk]
        by_cases hkey : citeKey c = citeKey a
        · exact ⟨a, List.mem_cons_self _ _, hkey.symm⟩
        · have hseen2 : citeKey c ∉ citeKey a :: seen := by
            intro hmem
            rcases List.mem_cons.mp hmem with heq | h2
            · exact hkey heq
            · exact hseen h2
          obtain ⟨c', hc', hk'⟩ := ih _ c hm hseen2
          exact ⟨c', List.mem_cons_of_mem _ hc', hk'⟩

theorem countP_key_eq_one (l : List Citation) (k : String × String)
    (hp : l.Pairwise fun a b => citeKey a ≠ citeKey b)
    (hex : ∃ c ∈ l, citeKey c = k) :
    l.countP (fun c => decide (citeKey c = k)) = 1 := by
  induction l with
  | nil =>
    obtain ⟨c, hc, _⟩ := hex
    cases hc
  | cons a rest ih =>
    obtain ⟨c, hc, hk⟩ := hex
    rcases List.mem_cons.mp hc with rfl | hm
    · rw [List.countP_cons_of_pos _ _ (by simp [hk])]
      have hzero : rest.countP (fun c => decide (citeKey c = k)) = 0 := by
        rw [List.countP_eq_zero]
        intro b hb
        simp only [decide_eq_true_eq]
        intro hbk
        exact (List.rel_of_pairwise_cons hp hb) (hk.trans hbk.symm)
      rw [hzero]
    · have hak : citeKey a ≠ k := by
        intro heq
        exact (List.rel_of_pairwise_cons hp hm) (heq.trans hk.symm)
      rw [List.countP_cons_of_neg _ _ (by simp [hak])]
      exact ih (List.Pairwise.of_cons hp) ⟨c, hm, hk⟩

theorem extract_citations_fst (r : Response) :
    (extract_citations r).1 = dedup (candidateCitations r) := by
  rcases r with ⟨cands⟩
  cases cands with
  | nil => rfl
  | cons candidate rest =>
    rcases candidate with ⟨gm, cattrs⟩
    cases gm with
    | none => rfl
    | some m => rfl

theorem firstTruthy_spec (a b : Option (List α)) :
    (∀ l, a = some l → l ≠ [] → firstTruthy a b = l) ∧
    ((a = none ∨ a = some []) → ∀ l, b = some l → l ≠ [] → firstTruthy a b = l) ∧
    ((a = none ∨ a = some []) → (b = none ∨ b = some []) → firstTruthy a b = []) := by
  refine ⟨?_, ?_, ?_⟩
  · intro l ha hl
    subst ha
    cases l with
    | nil => exact absurd rfl hl
    | cons x xs => rfl
  · intro ha l hb hl
    subst hb
    cases l with
    | nil => exact absurd rfl hl
    | cons y ys => rcases ha with rfl | rfl <;> rfl
  · intro ha hb
    rcases ha with rfl | rfl <;> rcases hb with rfl | rfl <;> rfl

/-! ### Claim theorems -/

/-- C1: for every input response, the citation list returned by
`extract_citations` has pairwise-distinct (title, first-100-characters)
keys, is a sublist of the chosen branch's candidate sequence (so relative
order is preserved), and equals the first-occurrence filter of that
sequence. -/
theorem c1_dedup_first_occurrences (r : Response) :
    ((extract_citations r).1.Pairwise fun a b => citeKey a ≠ citeKey b) ∧
    (extract_citations r).1.Sublist (candidateCitations r) ∧
    (extract_citations r).1 = dedupSpec (candidateCitations r) := by
  rw [extract_citations_fst]
  exact ⟨dedupAux_pairwise _ _, dedupAux_sublist _ _,
    dedupAux_eq_dedupSpecAux _ [] [] (fun _ => Iff.rfl)⟩

/-- C4: the chunk list used downstream is the primary-named field when
non-falsy, else the alternate-named field when non-falsy, else the empty
list (never merged), and the support list is resolved with the same
two-name, first-non-falsy precedence. -/
theorem c4_two_name_first_nonfalsy (m : GroundingMetadata) :
    (∀ l, m.grounding_chunks = some l → l ≠ [] → metadataChunks m = l) ∧
    ((m.grounding_chunks = none ∨ m.grounding_chunks = some []) →
      ∀ l, m.groundingChunks = some l → l ≠ [] → metadataChunks m = l) ∧
    ((m.grounding_chunks = none ∨ m.grounding_chunks = some []) →
      (m.groundingChunks = none ∨ m.groundingChunks = some []) →
      metadataChunks m = []) ∧
    (∀ l, m.grounding_supports = some l → l ≠ [] → metadataSupports m = l) ∧
    ((m.grounding_supports = none ∨ m.grounding_supports = some []) →
      ∀ l, m.groundingSupports = some l → l ≠ [] → metadataSupports m = l) ∧
    ((m.grounding_supports = none ∨ m.grounding_supports = some []) →
      (m.groundingSupports = none ∨ m.groundingSupports = some []) →
      metadataSupports m = []) := by
  obtain ⟨h1, h2, h3⟩ := firstTruthy_spec m.grounding_chunks m.groundingChunks
  obtain ⟨h4, h5, h6⟩ := firstTruthy_spec m.grounding_supports m.groundingSupports
  exact ⟨h1, h2, h3, h4, h5, h6⟩

/-- C5: a candidate without grounding metadata yields an empty citation
list plus diagnostics holding an explanatory note and the candidate's
attribute names, and (being a total function) raises nothing. -/
theorem c5_no_metadata_diagnostics (r : Response) (candidate : Candidate)
    (rest : List Candidate) (h : r.candidates = candidate :: rest)
    (hm : candidate.grounding_metadata = none) :
    extract_citations r =
      ([], [("error", DbgVal.str "No grounding_metadata in candidate"),
            ("candidate_attrs", DbgVal.strList candidate.attrs)]) := by
  unfold extract_citations
  rw [h]
  simp only [hm]

/-- C6: a response with an empty candidates list yields an empty citation
list and a diagnostic note, without raising. -/
theorem c6_no_candidates (r : Response) (h : r.candidates = []) :
    extract_citations r =
      ([], [("error", DbgVal.str "No candidates in response")]) := by
  unfold extract_citations
  rw [h]

/-- C9: `extract_citations` depends only on the first candidate — two
responses with non-empty candidate lists sharing the same first candidate
produce identical citations and identical diagnostics. -/
theorem c9_first_candidate_only (r1 r2 : Response) (c : Candidate)
    (t1 t2 : List Candidate) (h1 : r1.candidates = c :: t1)
    (h2 : r2.candidates = c :: t2) :
    extract_citations r1 = extract_citations r2 := by
  unfold extract_citations
  rw [h1, h2]

/-- C10: a chunk carrying no retrieved-context object (under either field
name) gets no title key in its `ChunkInfo`, and the emitted citation's
title is the branch-dependent default: "Source Document" in the
direct-chunk branch and "Unknown" in the supports branch. -/
theorem c10_branch_dependent_default_title (chunk : RawChunk) (i : Nat)
    (h1 : chunk.retrieved_context = none) (h2 : chunk.retrievedContext = none) :
    (resolveChunk chunk i).title = none ∧
    (mkCitationA (resolveChunk chunk i)).title = "Source Document" ∧
    (mkCitationB (resolveChunk chunk i)).title = "Unknown" := by
  simp [resolveChunk, mkCitationA, mkCitationB, h1, h2]

/-- A chunk with no retrieved-context object at all, carrying only excerpt
text: the case the spec's title-resolution rule gets wrong. -/
def chunkNoCtx : RawChunk :=
  { retrieved_context := none
    retrievedContext := none
    title := none
    text := some "hi"
    content := none
    attrs := [] }

/-- A response whose single candidate's metadata holds only `chunkNoCtx`
and no supports, so the direct-chunk branch emits the citation. -/
def respNoCtx : Response :=
  { candidates :=
      [{ grounding_metadata :=
           some { grounding_chunks := some [chunkNoCtx]
                  groundingChunks := none
                  grounding_supports := none
                  groundingSupports := none
                  retrieval_metadata := none
                  attrs := [] }
         attrs := [] }] }

/-- C3 counterexample: `chunkNoCtx` lacks every title-bearing field —
its retrieved-context object is absent under both names and it has no
chunk-level title — yet the citation `extract_citations` emits for it is
titled "Source Document", not "Unknown Source". -/
theorem c3_counterexample :
    chunkNoCtx.retrieved_context = none ∧
    chunkNoCtx.retrievedContext = none ∧
    chunkNoCtx.title = none ∧
    (extract_citations respNoCtx).1.map Citation.title = ["Source Document"] ∧
    "Source Document" ≠ "Unknown Source" := by
  refine ⟨rfl, rfl, rfl, rfl, ?_⟩
  decide

/-- C3 amended: for every chunk whose retrieved-context object is present
(under either field name) and that lacks a non-empty title at both the
context level and the chunk level and lacks a displayName, the resolved
title — and the title of the citation either branch emits from it — equals
the literal string "Unknown Source". -/
theorem c3_amended_unknown_source (chunk : RawChunk) (i : Nat)
    (c : RetrievedContext)
    (hctx : chunk.retrieved_context = some c ∨
      (chunk.retrieved_context = none ∧ chunk.retrievedContext = some c))
    (ht : c.title = none ∨ c.title = some "")
    (_hct : chunk.title = none ∨ chunk.title = some "")
    (hd : c.displayName = none) :
    (resolveChunk chunk i).title = some "Unknown Source" ∧
    (mkCitationA (resolveChunk chunk i)).title = "Unknown Source" ∧
    (mkCitationB (resolveChunk chunk i)).title = "Unknown Source" := by
  have htitle : pyOr (c.title.getD "") (c.displayName.getD "Unknown Source") =
      "Unknown Source" := by
    rcases ht with ht | ht <;> rw [ht, hd] <;> rfl
  rcases hctx with hctx | ⟨hnone, hctx⟩
  · simp [resolveChunk, mkCitationA, mkCitationB, hctx, htitle]
  · simp [resolveChunk, mkCitationA, mkCitationB, hctx, hnone, htitle]

/-- Replace a support's chunk-index list by its in-range indices only
(primary field spelling, alternate cleared): the sanitized support
references exactly the indices of the original that land in a chunk map of
size `n`. -/
def sanitizeSupport (n : Nat) (s : RawSupport) : RawSupport :=
  { grounding_chunk_indices :=
      some ((supportIndices s).filter fun idx =>
        !(decide (idx < 0)) && decide (idx.toNat < n))
    groundingChunkIndices := none }

theorem firstTruthy_some_none (l : List α) : firstTruthy (some l) none = l := by
  cases l <;> rfl

theorem supportIndices_sanitize (n : Nat) (s : RawSupport) :
    supportIndices (sanitizeSupport n s) =
      (supportIndices s).filter fun idx =>
        !(decide (idx < 0)) && decide (idx.toNat < n) :=
  firstTruthy_some_none _

theorem filterMap_eq_filterMap_filter {α β : Type} (f : α → Option β)
    (p : α → Bool) (l : List α) (h : ∀ x, p x = false → f x = none) :
    l.filterMap f = (l.filter p).filterMap f := by
  induction l with
  | nil => rfl
  | cons a rest ih =>
    cases hp : p a with
    | false =>
      simp [List.filter_cons, hp, List.filterMap_cons, h a hp, ih]
    | true =>
      simp [List.filter_cons, hp, List.filterMap_cons, ih]

theorem citeFromIndex_eq_none_of_invalid (infos : List ChunkInfo) (idx : Int)
    (h : (!(decide (idx < 0)) && decide (idx.toNat < infos.length)) = false) :
    citeFromIndex infos idx = none := by
  unfold citeFromIndex
  by_cases hneg : idx < 0
  · rw [if_pos hneg]
  · rw [if_neg hneg]
    have hlen : infos.length ≤ idx.toNat := by
      simp only [hneg, decide_False, Bool.not_false, Bool.true_and,
        decide_eq_false_iff_not, Nat.not_lt] at h
      exact h
    rw [List.getElem?_eq_none hlen]

/-- C7: out-of-range (or negative) chunk indices contribute zero citations
and are skipped without affecting anything else — the supports branch
produces the same citations whether or not every invalid index is removed
from every support beforehand, so in particular all remaining valid
indices, in the same or in other supports, are still processed. -/
theorem c7_invalid_indices_skipped (infos : List ChunkInfo)
    (supports : List RawSupport) :
    branchB infos supports =
      branchB infos (supports.map (sanitizeSupport infos.length)) := by
  unfold branchB
  induction supports with
  | nil => rfl
  | cons s rest ih =>
    simp only [List.map_cons, List.flatMap_cons]
    rw [ih]
    congr 1
    rw [supportIndices_sanitize]
    exact filterMap_eq_filterMap_filter _ _ _
      (citeFromIndex_eq_none_of_invalid infos)

theorem mem_branchB (infos : List ChunkInfo) (supports : List RawSupport)
    (cit : Citation) (h : cit ∈ branchB infos supports) :
    ∃ s ∈ supports, ∃ idx ∈ supportIndices s, ¬idx < 0 ∧
      ∃ info, infos[idx.toNat]? = some info ∧ cit = mkCitationB info := by
  unfold branchB at h
  rw [List.mem_flatMap] at h
  obtain ⟨s, hs, hmem⟩ := h
  rw [List.mem_filterMap] at hmem
  obtain ⟨idx, hidx, hf⟩ := hmem
  refine ⟨s, hs, idx, hidx, ?_⟩
  unfold citeFromIndex at hf
  by_cases hneg : idx < 0
  · rw [if_pos hneg] at hf
    cases hf
  · rw [if_neg hneg] at hf
    refine ⟨hneg, ?_⟩
    cases hinfo : infos[idx.toNat]? with
    | none => rw [hinfo] at hf; cases hf
    | some info =>
      rw [hinfo] at hf
      exact ⟨info, rfl, (Option.some.inj hf).symm⟩

theorem candidateCitations_of_metadata (r : Response) (cand : Candidate)
    (t : List Candidate) (m : GroundingMetadata)
    (hc : r.candidates = cand :: t) (hm : cand.grounding_metadata = some m) :
    candidateCitations r = rawCites m := by
  unfold candidateCitations
  rw [hc]
  simp only [hm]

/-- C2: the branches are exclusive.  With at least one (resolved) support
present, every emitted citation is built — by the supports-branch
constructor — from a chunk referenced by some support's index list, so the
direct-chunk branch contributes nothing even when chunks alone would be
citable; with no supports but chunks present, the output is exactly the
deduplicated list of citations of the citable chunks, in chunk order. -/
theorem c2_branch_exclusivity (r : Response) (cand : Candidate)
    (t : List Candidate) (m : GroundingMetadata)
    (hc : r.candidates = cand :: t) (hm : cand.grounding_metadata = some m) :
    (metadataSupports m ≠ [] →
      ∀ cit ∈ (extract_citations r).1,
        ∃ s ∈ metadataSupports m, ∃ idx ∈ supportIndices s, ¬idx < 0 ∧
          ∃ info, (chunkInfos m)[idx.toNat]? = some info ∧
            cit = mkCitationB info) ∧
    ((metadataSupports m = [] ∧ metadataChunks m ≠ []) →
      (extract_citations r).1 =
        dedup (((chunkInfos m).filter isCitable).map mkCitationA)) := by
  have hfst : (extract_citations r).1 = dedup (rawCites m) := by
    rw [extract_citations_fst, candidateCitations_of_metadata r cand t m hc hm]
  constructor
  · intro hsup cit hcit
    rw [hfst] at hcit
    have hraw : rawCites m = branchB (chunkInfos m) (metadataSupports m) := by
      unfold rawCites
      have : (metadataSupports m).isEmpty = false := by
        cases h2 : metadataSupports m with
        | nil => exact absurd h2 hsup
        | cons a l => rfl
      rw [this]
      simp
    rw [hraw] at hcit
    exact mem_branchB _ _ cit ((dedupAux_sublist _ _).subset hcit)
  · rintro ⟨hsup, hchunks⟩
    have hraw : rawCites m = branchA (chunkInfos m) := by
      unfold rawCites
      have h1 : (metadataChunks m).isEmpty = false := by
        cases h2 : metadataChunks m with
        | nil => exact absurd h2 hchunks
        | cons a l => rfl
      rw [h1, hsup]
      rfl
    rw [hfst, hraw]
    rfl

/-- C8: the deduplication pass is idempotent, and a duplicated key among
the chosen branch's candidate citations — e.g. from two chunks sharing a
title and the first 100 characters of text — yields exactly one output
citation carrying that key. -/
theorem c8_dedup_idempotent :
    (∀ cs : List Citation, dedup (dedup cs) = dedup cs) ∧
    (∀ (r : Response) (c : Citation), c ∈ candidateCitations r →
      (extract_citations r).1.countP
        (fun c' => decide (citeKey c' = citeKey c)) = 1) := by
  constructor
  · intro cs
    exact dedupAux_eq_self _ [] (dedupAux_pairwise cs []) (by simp)
  · intro r c hc
    rw [extract_citations_fst]
    exact countP_key_eq_one _ _ (dedupAux_pairwise _ _)
      (exists_key_mem_dedupAux _ [] c hc (by simp))

/-! ### Concrete inputs for the witnesses -/

/-- A retrieved context titled "B". -/
def ctxB : RetrievedContext := { title := some "B", displayName := none, uri := none }

/-- A chunk with context `ctxB` and excerpt text "Y". -/
def chunkB : RawChunk :=
  { retrieved_context := some ctxB
    retrievedContext := none
    title := none
    text := some "Y"
    content := none
    attrs := [] }

/-- A support referencing chunk index 1 only. -/
def supRef1 : RawSupport :=
  { grounding_chunk_indices := some [1], groundingChunkIndices := none }

/-- Metadata with two chunks and one support referencing only chunk 1. -/
def mSup : GroundingMetadata :=
  { grounding_chunks := some [chunkNoCtx, chunkB]
    groundingChunks := none
    grounding_supports := some [supRef1]
    groundingSupports := none
    retrieval_metadata := none
    attrs := [] }

/-- The candidate carrying `mSup`. -/
def candSup : Candidate := { grounding_metadata := some mSup, attrs := [] }

/-- A response whose single candidate carries `mSup`. -/
def respSup : Response := { candidates := [candSup] }

/-- A retrieved context with every field absent. -/
def ctxEmpty : RetrievedContext := { title := none, displayName := none, uri := none }

/-- A chunk whose context is present but carries no title-bearing field. -/
def chunkCtxEmpty : RawChunk :=
  { retrieved_context := some ctxEmpty
    retrievedContext := none
    title := none
    text := some "hi"
    content := none
    attrs := [] }

/-- A support with both index-list fields absent. -/
def supEmptyIdx : RawSupport :=
  { grounding_chunk_indices := none, groundingChunkIndices := none }

/-- Metadata exercising the two-name precedence: truthy primary chunk
field next to a falsy alternate, and a falsy primary support field next to
a truthy alternate. -/
def mPrec : GroundingMetadata :=
  { grounding_chunks := some [chunkNoCtx]
    groundingChunks := some []
    grounding_supports := none
    groundingSupports := some [supEmptyIdx]
    retrieval_metadata := none
    attrs := [] }

/-- A candidate with no grounding metadata. -/
def candNoMeta : Candidate :=
  { grounding_metadata := none, attrs := ["content", "finish_reason"] }

/-- A response whose single candidate has no grounding metadata. -/
def respNoMeta : Response := { candidates := [candNoMeta] }

/-- A response with no candidates at all. -/
def respEmpty : Response := { candidates := [] }

/-- Metadata holding the same chunk twice and no supports. -/
def mDup : GroundingMetadata :=
  { grounding_chunks := some [chunkB, chunkB]
    groundingChunks := none
    grounding_supports := none
    groundingSupports := none
    retrieval_metadata := none
    attrs := [] }

/-- A response with two duplicate chunks. -/
def respDup : Response := { candidates := [{ grounding_metadata := some mDup, attrs := [] }] }

/-- The citation both copies of `chunkB` resolve to. -/
def citB : Citation := { title := "B", source_text := "Y", uri := "" }

/-- A response sharing `respSup`'s first candidate but with a second
candidate appended. -/
def respSup2 : Response := { candidates := [candSup, candNoMeta] }

/-! ### Witnesses -/

/-- Witness for C2 at `respSup`. -/
theorem c2_witness :
    respSup.candidates = candSup :: [] ∧
    candSup.grounding_metadata = some mSup ∧
    ((metadataSupports mSup ≠ [] →
      ∀ cit ∈ (extract_citations respSup).1,
        ∃ s ∈ metadataSupports mSup, ∃ idx ∈ supportIndices s, ¬idx < 0 ∧
          ∃ info, (chunkInfos mSup)[idx.toNat]? = some info ∧
            cit = mkCitationB info) ∧
    ((metadataSupports mSup = [] ∧ metadataChunks mSup ≠ []) →
      (extract_citations respSup).1 =
        dedup (((chunkInfos mSup).filter isCitable).map mkCitationA))) :=
  ⟨rfl, rfl, c2_branch_exclusivity respSup candSup [] mSup rfl rfl⟩

/-- Witness for the amended C3 at `chunkCtxEmpty`. -/
theorem c3_witness :
    (chunkCtxEmpty.retrieved_context = some ctxEmpty ∨
      (chunkCtxEmpty.retrieved_context = none ∧
        chunkCtxEmpty.retrievedContext = some ctxEmpty)) ∧
    (ctxEmpty.title = none ∨ ctxEmpty.title = some "") ∧
    (chunkCtxEmpty.title = none ∨ chunkCtxEmpty.title = some "") ∧
    ctxEmpty.displayName = none ∧
    ((resolveChunk chunkCtxEmpty 0).title = some "Unknown Source" ∧
     (mkCitationA (resolveChunk chunkCtxEmpty 0)).title = "Unknown Source" ∧
     (mkCitationB (resolveChunk chunkCtxEmpty 0)).title = "Unknown Source") :=
  ⟨Or.inl rfl, Or.inl rfl, Or.inl rfl, rfl,
    c3_amended_unknown_source chunkCtxEmpty 0 ctxEmpty (Or.inl rfl) (Or.inl rfl)
      (Or.inl rfl) rfl⟩

/-- Witness for C4 at `mPrec`. -/
theorem c4_witness :
    mPrec.grounding_chunks = some [chunkNoCtx] ∧
    ([chunkNoCtx] : List RawChunk) ≠ [] ∧
    metadataChunks mPrec = [chunkNoCtx] ∧
    (mPrec.grounding_supports = none ∨ mPrec.grounding_supports = some []) ∧
    mPrec.groundingSupports = some [supEmptyIdx] ∧
    ([supEmptyIdx] : List RawSupport) ≠ [] ∧
    metadataSupports mPrec = [supEmptyIdx] :=
  ⟨rfl, List.cons_ne_nil _ _,
    (c4_two_name_first_nonfalsy mPrec).1 _ rfl (List.cons_ne_nil _ _),
    Or.inl rfl, rfl, List.cons_ne_nil _ _,
    (c4_two_name_first_nonfalsy mPrec).2.2.2.2.1 (Or.inl rfl) _ rfl
      (List.cons_ne_nil _ _)⟩

/-- Witness for C5 at `respNoMeta`. -/
theorem c5_witness :
    respNoMeta.candidates = candNoMeta :: [] ∧
    candNoMeta.grounding_metadata = none ∧
    extract_citations respNoMeta =
      ([], [("error", DbgVal.str "No grounding_metadata in candidate"),
            ("candidate_attrs", DbgVal.strList candNoMeta.attrs)]) :=
  ⟨rfl, rfl, c5_no_metadata_diagnostics respNoMeta candNoMeta [] rfl rfl⟩

/-- Witness for C6 at `respEmpty`. -/
theorem c6_witness :
    respEmpty.candidates = [] ∧
    extract_citations respEmpty =
      ([], [("error", DbgVal.str "No candidates in response")]) :=
  ⟨rfl, c6_no_candidates respEmpty rfl⟩

/-- Witness for C8 at `respDup`, whose two chunks share title and text. -/
theorem c8_witness :
    citB ∈ candidateCitations respDup ∧
    (extract_citations respDup).1.countP
      (fun c' => decide (citeKey c' = citeKey citB)) = 1 :=
  ⟨by decide, c8_dedup_idempotent.2 respDup citB (by decide)⟩

/-- Witness for C9 at `respSup` and `respSup2`. -/
theorem c9_witness :
    respSup.candidates = candSup :: [] ∧
    respSup2.candidates = candSup :: [candNoMeta] ∧
    extract_citations respSup = extract_citations respSup2 :=
  ⟨rfl, rfl, c9_first_candidate_only respSup respSup2 candSup [] [candNoMeta] rfl rfl⟩

/-- Witness for C10 at `chunkNoCtx`. -/
theorem c10_witness :
    chunkNoCtx.retrieved_context = none ∧
    chunkNoCtx.retrievedContext = none ∧
    ((resolveChunk chunkNoCtx 0).title = none ∧
     (mkCitationA (resolveChunk chunkNoCtx 0)).title = "Source Document" ∧
     (mkCitationB (resolveChunk chunkNoCtx 0)).title = "Unknown") :=
  ⟨rfl, rfl, c10_branch_dependent_default_title chunkNoCtx 0 rfl rfl⟩

end GSPP
